import Mathlib

/-
Shallow embedding of the authentication / preference subsystem of the
olympia_dash repository (src/api/auth).  Database tables are modelled as
Lean values (association lists or lookup functions keyed the way the SQL
statements are keyed), SQL timestamps as integers, and each Python
function is translated into a pure Lean function over that state.
JWT encoding and decoding is abstracted: a token decoder is passed as a
function returning the decoded payload, exactly the information
jwt.decode yields to the route code.
-/

set_option autoImplicit false

namespace Olympia

/-! ## JSON documents (preference store payloads)

The preference document is an arbitrary JSON tree (database.py stores it
with json.dumps / json.loads).  Python dicts are modelled as association
lists with insertion-order semantics: updating an existing key replaces
the value in place, a new key is appended. -/

inductive JVal where
  | null
  | bool (b : Bool)
  | num (n : Int)
  | str (s : String)
  | arr (xs : List JVal)
  | obj (fields : List (String × JVal))

/-- First-match lookup, the reading semantics of a Python dict (keys are
unique in dicts produced by json.loads or by the merge below). -/
def lookupEntry {α : Type} (k : String) : List (String × α) → Option α
  | [] => none
  | (k2, v) :: rest => if k2 = k then some v else lookupEntry k rest

/-- Python dict assignment d[k] = v : replace the value in place when the
key exists, append otherwise. -/
def setEntry {α : Type} (k : String) (v : α) : List (String × α) → List (String × α)
  | [] => [(k, v)]
  | (k2, v2) :: rest => if k2 = k then (k, v) :: rest else (k2, v2) :: setEntry k v rest

/-- Python del d[k] when the key is present, no-op otherwise. -/
def removeKey (k : String) : List (String × JVal) → List (String × JVal)
  | [] => []
  | (k2, v) :: rest => if k2 = k then rest else (k2, v) :: removeKey k rest

/-- database.py update_user_preferences, inner deep_merge: iterate over the
update entries; when the key is present in the base and both values are
dicts, merge recursively, otherwise assign the update value. -/
def deep_merge : List (String × JVal) → List (String × JVal) → List (String × JVal)
  | base, [] => base
  | base, (k, v) :: rest =>
    match lookupEntry k base, v with
    | some (JVal.obj bo), JVal.obj uo =>
      deep_merge (setEntry k (JVal.obj (deep_merge bo uo)) base) rest
    | _, _ => deep_merge (setEntry k v base) rest
termination_by _b u => sizeOf u
decreasing_by all_goals (simp_wf; try omega)

/-! ## Preference store (user_preferences table, one row per user) -/

structure PrefRow where
  preferences : JVal
  version : Nat
  updated_at : Int

structure PrefsResult where
  preferences : JVal
  version : Nat
  updated_at : Option Int

/-- database.py get_user_preferences: absent row reads as empty document,
version 0, no timestamp.  (Stored documents are structured values here, so
the json.JSONDecodeError branch of the source is unreachable.) -/
def get_user_preferences : Option PrefRow → PrefsResult
  | some r => ⟨r.preferences, r.version, some r.updated_at⟩
  | none => ⟨JVal.obj [], 0, none⟩

/-- database.py set_user_preferences: when a row exists, an explicitly
supplied expected version different from the stored one is a conflict
(returns none, no write); otherwise the document is stored at version
plus one.  When no row exists the record is created at version 1 and the
expected version is never consulted. -/
def set_user_preferences (st : Option PrefRow) (doc : JVal) (expected : Option Nat)
    (now : Int) : Option Nat × Option PrefRow :=
  match st with
  | some r =>
    match expected with
    | some e =>
      if e ≠ r.version then (none, some r)
      else (some (r.version + 1), some ⟨doc, r.version + 1, now⟩)
    | none => (some (r.version + 1), some ⟨doc, r.version + 1, now⟩)
  | none => (some 1, some ⟨doc, 1, now⟩)

/-- The stored version a reader observes, 0 when no row exists (the value
get_user_preferences reports). -/
def storedVersion : Option PrefRow → Nat
  | some r => r.version
  | none => 0

/-- Merge step of update_user_preferences after its own conflict check:
deep_merge requires the current document to be a dict; on a non-dict
current document the Python code raises unless the update is empty
(modelled as none).  Reachable states always hold objects. -/
def updateMerge (st : Option PrefRow) (cur : PrefsResult) (upd : List (String × JVal))
    (now : Int) : Option (Option Nat × Option PrefRow) :=
  match cur.preferences with
  | JVal.obj base => some (set_user_preferences st (JVal.obj (deep_merge base upd)) (some cur.version) now)
  | other => if upd.isEmpty then some (set_user_preferences st other (some cur.version) now) else none

/-- database.py update_user_preferences: read the current document, check
the expected version against the current one, deep-merge the partial
update and delegate to set_user_preferences with the current version. -/
def update_user_preferences (st : Option PrefRow) (upd : List (String × JVal))
    (expected : Option Nat) (now : Int) : Option (Option Nat × Option PrefRow) :=
  let cur := get_user_preferences st
  match expected with
  | some e =>
    if e ≠ cur.version then some (none, st) else updateMerge st cur upd now
  | none => updateMerge st cur upd now

/-- Removal of one dot-delimited path (parts of key.split), walking only
through existing dict-valued intermediate segments; a missing or
non-dict segment makes the whole key a no-op. -/
def removePath (prefs : List (String × JVal)) : List String → List (String × JVal)
  | [] => prefs
  | [last] => removeKey last prefs
  | p :: rest =>
    match lookupEntry p prefs with
    | some (JVal.obj sub) => setEntry p (JVal.obj (removePath sub rest)) prefs
    | _ => prefs

/-- One key of delete_user_preferences: dotted keys walk the nested
structure, plain keys delete at the top level. -/
def deleteOneKey (prefs : List (String × JVal)) (key : String) : List (String × JVal) :=
  if key.contains '.' then removePath prefs (key.splitOn ".")
  else removeKey key prefs

/-- database.py delete_user_preferences: read the current document, drop
each requested key, delegate to set_user_preferences with the current
version (which therefore never conflicts sequentially). -/
def delete_user_preferences (st : Option PrefRow) (keys : List String)
    (now : Int) : Option (Option Nat × Option PrefRow) :=
  let cur := get_user_preferences st
  match cur.preferences with
  | JVal.obj base =>
    some (set_user_preferences st (JVal.obj (keys.foldl deleteOneKey base)) (some cur.version) now)
  | other => if keys.isEmpty then some (set_user_preferences st other (some cur.version) now) else none


/-! ## Split view of set_user_preferences for the concurrency analysis

The source runs SELECT version and then a separate UPDATE that is not
conditioned on the version; the conflict test happens in between, in the
application.  setObserve is the SELECT, setCommit the rest, acting on
whatever state the store holds at commit time while using the version
observed earlier.  Their sequential composition is exactly
set_user_preferences (theorem set_split_coherent below). -/

def setObserve : Option PrefRow → Option Nat
  | some r => some r.version
  | none => none

def setCommit (st : Option PrefRow) (doc : JVal) (expected : Option Nat)
    (observed : Option Nat) (now : Int) : Option Nat × Option PrefRow :=
  match observed with
  | some v =>
    match expected with
    | some e =>
      if e ≠ v then (none, st)
      else (some (v + 1), some ⟨doc, v + 1, now⟩)
    | none => (some (v + 1), some ⟨doc, v + 1, now⟩)
  | none => (some 1, some ⟨doc, 1, now⟩)

/-- Written from the spec words for the deep merge, value seen at one key:
when base and update both hold objects at the key they are merged
recursively, any other update value overwrites wholesale, and keys absent
from the update keep the base value. -/
def specMergeAt : Option JVal → Option JVal → Option JVal
  | some (JVal.obj bo), some (JVal.obj uo) => some (JVal.obj (deep_merge bo uo))
  | _, some uv => some uv
  | b, none => b


/-! ## Rate limiter (database.py check_rate_limit, rate_limits table)

State is the one row per identifier and endpoint; time is an integer in
the same unit as windowMinutes.  The returned Bool is True when the
request is denied, mirroring the Python return value.  The no-row branch
inserts a counter at 1 without consulting the limit; window_start then
defaults to the current time. -/

structure RLRow where
  count : Nat
  window_start : Int
deriving DecidableEq

def check_rate_limit (st : Option RLRow) (now : Int) (maxRequests : Nat)
    (windowMinutes : Int) : Bool × Option RLRow :=
  let windowStart := now - windowMinutes
  match st with
  | some r =>
    if r.window_start < windowStart then (false, some ⟨1, now⟩)
    else if maxRequests ≤ r.count then (true, some r)
    else (false, some ⟨r.count + 1, r.window_start⟩)
  | none => (false, some ⟨1, now⟩)

def rlRun : Option RLRow → List Int → Nat → Int → List Bool × Option RLRow
  | st, [], _, _ => ([], st)
  | st, t :: ts, m, w =>
    let step := check_rate_limit st t m w
    let rest := rlRun step.2 ts m w
    (step.1 :: rest.1, rest.2)


/-! ## Users, tokens, refresh and the auth middleware

get_user_by_id models the SELECT by primary key on the users table.
Tokens are abstracted at the boundary jwt gives the routes: a decoder
maps the raw token string to its payload when the signature, expiry and
audience checks pass, and to none otherwise.  generate_access_token
records the claims the route places in a fresh access token.  The
sessions and device_sessions tables are lookup functions keyed by the
unique refresh_token column, as the SELECT statements are. -/

structure User where
  id : Nat
  email : String
  name : String
  role : String
  is_active : Bool
deriving DecidableEq

def get_user_by_id (users : List User) (uid : Nat) : Option User :=
  users.find? (fun u => u.id == uid)

structure TokenPayload where
  user_id : Nat
  email : String
  typ : String
deriving DecidableEq

structure AccessClaims where
  user_id : Nat
  email : String
  role : String
  typ : String
deriving DecidableEq

def generate_access_token (uid : Nat) (email role : String) : AccessClaims :=
  ⟨uid, email, role, "access"⟩

structure SessRow where
  user_id : Nat
deriving DecidableEq

inductive RefreshResult where
  | badRequest
  | invalidToken
  | sessionNotFound
  | userInvalid
  | ok (claims : AccessClaims)
deriving DecidableEq

def refresh (decode : String → Option TokenPayload)
    (sessions devSessions : String → Option SessRow)
    (users : List User) (body : Option String) : RefreshResult :=
  match body with
  | none => RefreshResult.badRequest
  | some tok =>
    match decode tok with
    | none => RefreshResult.invalidToken
    | some p =>
      if p.typ = "refresh" then
        match (match sessions tok with
               | some s => some s
               | none => devSessions tok) with
        | some _ =>
          match get_user_by_id users p.user_id with
          | some u =>
            if u.is_active then RefreshResult.ok (generate_access_token u.id u.email u.role)
            else RefreshResult.userInvalid
          | none => RefreshResult.userInvalid
        | none => RefreshResult.sessionNotFound
      else RefreshResult.invalidToken

def refreshStatus : RefreshResult → Nat
  | RefreshResult.badRequest => 400
  | RefreshResult.invalidToken => 401
  | RefreshResult.sessionNotFound => 401
  | RefreshResult.userInvalid => 401
  | RefreshResult.ok _ => 200

def get_current_user (decode : String → Option TokenPayload) (users : List User)
    (tok : Option String) : Option User :=
  match tok with
  | none => none
  | some t =>
    match decode t with
    | none => none
    | some p =>
      if p.typ = "access" then
        match get_user_by_id users p.user_id with
        | some u => if u.is_active then some u else none
        | none => none
      else none

def require_auth_status : Option User → Nat
  | some _ => 200
  | none => 401

structure DCRow where
  id : Nat
  user_id : Option Nat
  expires_at : Int
  device_name : String
deriving DecidableEq

structure DSRow where
  device_code_id : Nat
  user_id : Nat
  refresh_token : Nat
  expires_at : Int
  device_name : String
deriving DecidableEq

def deviceSessionTtl : Int := 30

inductive PollOutcome where
  | invalidCode
  | expired
  | pending
  | inactiveUser
  | authorized (accessTok refreshTok : Nat) (uid : Nat) (email name role : String)
deriving DecidableEq

def poll_device_code (dc : Option DCRow) (users : List User) (now : Int)
    (sessions : List DSRow) (ctr : Nat) : PollOutcome × List DSRow × Nat :=
  match dc with
  | none => (PollOutcome.invalidCode, sessions, ctr)
  | some r =>
    if r.expires_at < now then (PollOutcome.expired, sessions, ctr)
    else
      match r.user_id with
      | none => (PollOutcome.pending, sessions, ctr)
      | some uid =>
        match get_user_by_id users uid with
        | some u =>
          if u.is_active then
            (PollOutcome.authorized ctr (ctr + 1) u.id u.email u.name u.role,
             sessions ++ [⟨r.id, uid, ctr + 1, now + deviceSessionTtl, r.device_name⟩],
             ctr + 2)
          else (PollOutcome.inactiveUser, sessions, ctr)
        | none => (PollOutcome.inactiveUser, sessions, ctr)


/-! ## Widget permissions (database.py get_user_widget_permissions and
check_widget_access)

Tables are lists in row order.  Python dict comprehensions over query
results are modelled by folding setEntry over the rows, so a later row
with the same widget id overwrites the value of an earlier one while the
merge of the two dicts starts from the group dict and writes the direct
entries over it, exactly the double-splat merge in the source.
lastValue returns the value of the last row for a key and orElseOpt
prefers its first argument; both only serve to state theorems. -/

structure WPRow where
  user_id : Nat
  widget_id : String
  access_level : String
  expires_at : Option Int
deriving DecidableEq

structure GMRow where
  group_id : Nat
  user_id : Nat
deriving DecidableEq

structure GWPRow where
  group_id : Nat
  widget_id : String
  access_level : String
  expires_at : Option Int
deriving DecidableEq

structure PermDB where
  users : List User
  widget_permissions : List WPRow
  group_members : List GMRow
  group_widget_permissions : List GWPRow
deriving DecidableEq

def notExpired (expires : Option Int) (now : Int) : Bool :=
  match expires with
  | none => true
  | some t => now < t

def directRows (db : PermDB) (uid : Nat) (now : Int) : List (String × String) :=
  (db.widget_permissions.filter
    (fun r => r.user_id == uid && notExpired r.expires_at now)).map
    (fun r => (r.widget_id, r.access_level))

def groupRows (db : PermDB) (uid : Nat) (now : Int) : List (String × String) :=
  (db.group_widget_permissions.filter
    (fun g => (db.group_members.any (fun m2 => m2.group_id == g.group_id && m2.user_id == uid))
      && notExpired g.expires_at now)).map
    (fun g => (g.widget_id, g.access_level))

def dictOfRows (rows : List (String × String)) : List (String × String) :=
  rows.foldl (fun m kv => setEntry kv.1 kv.2 m) []

def dictMerge (a b : List (String × String)) : List (String × String) :=
  b.foldl (fun m kv => setEntry kv.1 kv.2 m) a

def get_user_widget_permissions (db : PermDB) (uid : Nat) (now : Int) :
    List (String × String) :=
  dictMerge (dictOfRows (groupRows db uid now)) (dictOfRows (directRows db uid now))

def levelRank (lvl : String) : Nat :=
  if lvl = "view" then 1 else if lvl = "edit" then 2 else if lvl = "admin" then 3 else 0

def check_widget_access (db : PermDB) (uid : Nat) (widget required : String)
    (now : Int) : Bool :=
  let isAdmin : Bool :=
    match get_user_by_id db.users uid with
    | some u => u.role == "admin"
    | none => false
  if isAdmin then true
  else
    match lookupEntry widget (get_user_widget_permissions db uid now) with
    | none => false
    | some lvl => if lvl = "" then false else levelRank required ≤ levelRank lvl

def lastValue {α : Type} (k : String) : List (String × α) → Option α
  | [] => none
  | (k2, v) :: rest =>
    match lastValue k rest with
    | some x => some x
    | none => if k2 = k then some v else none

def orElseOpt {α : Type} : Option α → Option α → Option α
  | some x, _ => some x
  | none, b => b

/-- Concrete permission database: user 1 has role user, a direct view
grant on widget w, and through membership of group 2 an admin grant on
the same widget; nothing is expired. -/

def permDB0 : PermDB :=
  ⟨[⟨1, "u@e", "U", "user", true⟩],
   [⟨1, "w", "view", none⟩],
   [⟨2, 1⟩],
   [⟨2, "w", "admin", none⟩]⟩


/-- Concrete permission database: user 1 has role user and only one
grant, an admin-level group grant on widget w through group 5; user 2
has role admin and no grants. -/

def permDBW : PermDB :=
  ⟨[⟨1, "a@e", "A", "user", true⟩, ⟨2, "b@e", "B", "admin", true⟩],
   [],
   [⟨5, 1⟩],
   [⟨5, "w", "admin", none⟩]⟩

/-! ## Theorems -/

/-- Unfolding equation of deep_merge on an empty update. -/
theorem deep_merge_nil (base : List (String × JVal)) : deep_merge base [] = base := by
  rw [deep_merge.eq_def]

/-- Unfolding equation of deep_merge on a nonempty update. -/
theorem deep_merge_cons (base : List (String × JVal)) (k : String) (v : JVal)
    (rest : List (String × JVal)) :
    deep_merge base ((k, v) :: rest) = (match lookupEntry k base, v with
      | some (JVal.obj bo), JVal.obj uo => deep_merge (setEntry k (JVal.obj (deep_merge bo uo)) base) rest
      | _, _ => deep_merge (setEntry k v base) rest) := by
  rw [deep_merge.eq_def]
  try rfl

theorem lookupEntry_setEntry {α : Type} (k k2 : String) (v : α) (l : List (String × α)) :
    lookupEntry k (setEntry k2 v l) = if k2 = k then some v else lookupEntry k l := by
  induction l with
  | nil => simp [setEntry, lookupEntry]
  | cons hd tl ih =>
    obtain ⟨k3, v3⟩ := hd
    simp only [setEntry]
    by_cases h1 : k3 = k2
    · subst h1
      simp only [if_pos rfl, lookupEntry]
      split_ifs <;> simp_all
    · rw [if_neg h1]
      simp only [lookupEntry, ih]
      split_ifs <;> simp_all

theorem lookupEntry_eq_none {α : Type} (k : String) (l : List (String × α))
    (h : k ∉ l.map Prod.fst) : lookupEntry k l = none := by
  induction l with
  | nil => rfl
  | cons hd tl ih =>
    obtain ⟨k2, v⟩ := hd
    rw [List.map_cons, List.mem_cons] at h
    push_neg at h
    have hne : k2 ≠ k := fun hh => h.1 hh.symm
    simp [lookupEntry, hne, ih h.2]

theorem specMergeAt_none_right (b : Option JVal) : specMergeAt b none = b := by
  cases b with
  | none => rfl
  | some v => cases v <;> rfl

/-- Key-by-key characterization of deep_merge: at every key the result is
specMergeAt of the two sides, provided the update carries no duplicate
keys, which holds for every Python dict. -/
theorem lookup_deep_merge (k : String) (upd : List (String × JVal)) :
    ∀ base : List (String × JVal), (upd.map Prod.fst).Nodup →
    lookupEntry k (deep_merge base upd) = specMergeAt (lookupEntry k base) (lookupEntry k upd) := by
  induction upd with
  | nil =>
    intro base _h
    have h0 : lookupEntry k ([] : List (String × JVal)) = none := rfl
    rw [deep_merge_nil, h0, specMergeAt_none_right]
  | cons hd rest ih =>
    obtain ⟨k2, v⟩ := hd
    intro base hnd
    rw [List.map_cons, List.nodup_cons] at hnd
    obtain ⟨hk2, hrest⟩ := hnd
    rw [deep_merge_cons]
    by_cases hk : k2 = k
    · subst hk
      have hnone : lookupEntry k2 rest = none := lookupEntry_eq_none _ _ hk2
      have hhead : lookupEntry k2 ((k2, v) :: rest) = some v := by simp [lookupEntry]
      rw [hhead]
      rcases hb : lookupEntry k2 base with _ | bv
      · cases v <;>
          simp [hb, ih _ hrest, lookupEntry_setEntry, hnone, specMergeAt_none_right, specMergeAt]
      · cases bv <;> cases v <;>
          simp [hb, ih _ hrest, lookupEntry_setEntry, hnone, specMergeAt_none_right, specMergeAt]
    · have hhead : lookupEntry k ((k2, v) :: rest) = lookupEntry k rest := by
        simp [lookupEntry, hk]
      rw [hhead]
      rcases hb : lookupEntry k2 base with _ | bv
      · cases v <;> simp [hb, ih _ hrest, lookupEntry_setEntry, hk]
      · cases bv <;> cases v <;> simp [hb, ih _ hrest, lookupEntry_setEntry, hk]

/-- Sequential coherence of the split model: observing and then
committing with no interference is exactly set_user_preferences. -/
theorem set_split_coherent (st : Option PrefRow) (doc : JVal) (ev : Option Nat) (now : Int) :
    setCommit st doc ev (setObserve st) now = set_user_preferences st doc ev now := by
  cases st <;> cases ev <;> rfl

/-- C3: failing evaluation for the claim that the version check and the
write form a single atomic compare-and-set so that two writers with the
same stale expected version produce exactly one success and one
conflict.  The code reads the version with one statement and later
writes unconditionally with another; in the interleaving where writers A
and B both observe version 1 before either commits, both commits succeed
with result version 2 and the document of B silently overwrites that of
A. -/
theorem set_interleaving_both_succeed :
    (setObserve (some ⟨JVal.obj [], 1, 0⟩) = some 1) ∧
    (setCommit (some ⟨JVal.obj [], 1, 0⟩) (JVal.str "A") (some 1) (some 1) 1 =
      (some 2, some ⟨JVal.str "A", 2, 1⟩)) ∧
    (setCommit (some ⟨JVal.str "A", 2, 1⟩) (JVal.str "B") (some 1) (some 1) 2 =
      (some 2, some ⟨JVal.str "B", 2, 2⟩)) :=
  ⟨rfl, rfl, rfl⟩

/-- C2: counterexample to the claim as stated.  With no preference row
and a supplied expected version 5, which differs from the stored version
0, set does not return a conflict and does perform a write: it creates
the row at version 1. -/
theorem set_no_row_ignores_expected_version :
    set_user_preferences none (JVal.obj []) (some 5) 0 = (some 1, some ⟨JVal.obj [], 1, 0⟩) ∧
    ¬((set_user_preferences none (JVal.obj []) (some 5) 0).1 = none ∧
      (set_user_preferences none (JVal.obj []) (some 5) 0).2 = none) := by
  refine ⟨rfl, ?_⟩
  rintro ⟨h1, _h2⟩
  simp [set_user_preferences] at h1

/-- C2 amended: set returns a conflict, leaving the stored state
unchanged, if and only if a row already exists, an expected version is
supplied, and it differs from the stored version; with no row the
supplied expected version is ignored and the write happens. -/
theorem set_conflict_iff_characterization (st : Option PrefRow) (doc : JVal)
    (ev : Option Nat) (now : Int) :
    ((set_user_preferences st doc ev now).1 = none ↔
      ∃ r e, st = some r ∧ ev = some e ∧ e ≠ r.version) ∧
    ((set_user_preferences st doc ev now).1 = none →
      (set_user_preferences st doc ev now).2 = st) := by
  cases st with
  | none =>
    cases ev <;> simp [set_user_preferences]
  | some r =>
    cases ev with
    | none => simp [set_user_preferences]
    | some e =>
      by_cases h : e = r.version
      · subst h
        simp [set_user_preferences]
      · refine ⟨⟨fun _ => ⟨r, e, rfl, rfl, h⟩, fun _ => ?_⟩, fun _ => ?_⟩ <;>
          simp [set_user_preferences, h]

/-- Witness for set_conflict_iff_characterization at a concrete conflicting
input. -/
theorem set_conflict_iff_witness :
    (set_user_preferences (some ⟨JVal.obj [], 2, 0⟩) JVal.null (some 1) 7).1 = none ∧
    (set_user_preferences (some ⟨JVal.obj [], 2, 0⟩) JVal.null (some 1) 7).2 =
      some ⟨JVal.obj [], 2, 0⟩ := by
  have h := set_conflict_iff_characterization (some ⟨JVal.obj [], 2, 0⟩) JVal.null (some 1) 7
  have h1 : (set_user_preferences (some ⟨JVal.obj [], 2, 0⟩) JVal.null (some 1) 7).1 = none :=
    h.1.mpr ⟨⟨JVal.obj [], 2, 0⟩, 1, rfl, rfl, by decide⟩
  exact ⟨h1, h.2 h1⟩

theorem set_success_version (st : Option PrefRow) (doc : JVal) (ev : Option Nat) (now : Int)
    (r : Nat) (st2 : Option PrefRow)
    (h : set_user_preferences st doc ev now = (some r, st2)) : r = storedVersion st + 1 := by
  cases st with
  | none =>
    cases ev <;> simp [set_user_preferences, storedVersion] at h ⊢ <;> omega
  | some row =>
    cases ev with
    | none =>
      simp [set_user_preferences, storedVersion] at h ⊢
      omega
    | some e =>
      by_cases he : e = row.version
      · subst he
        simp [set_user_preferences, storedVersion] at h ⊢
        omega
      · simp [set_user_preferences, storedVersion, he] at h

theorem updateMerge_success (st : Option PrefRow) (cur : PrefsResult)
    (upd : List (String × JVal)) (now : Int) (r : Nat) (st2 : Option PrefRow)
    (h : updateMerge st cur upd now = some (some r, st2)) :
    ∃ X, set_user_preferences st X (some cur.version) now = (some r, st2) := by
  unfold updateMerge at h
  cases hp : cur.preferences <;> rw [hp] at h
  case obj base =>
    exact ⟨_, by injection h⟩
  all_goals cases hu : upd.isEmpty <;> rw [hu] at h
  all_goals first
    | (exact ⟨_, Option.some.inj h⟩)
    | (simp at h)

theorem update_success_version (st : Option PrefRow) (upd : List (String × JVal))
    (ev : Option Nat) (now : Int) (r : Nat) (st2 : Option PrefRow)
    (h : update_user_preferences st upd ev now = some (some r, st2)) :
    r = storedVersion st + 1 := by
  cases ev with
  | none =>
    simp only [update_user_preferences] at h
    obtain ⟨X, hX⟩ := updateMerge_success _ _ _ _ _ _ h
    exact set_success_version _ _ _ _ _ _ hX
  | some e =>
    simp only [update_user_preferences] at h
    by_cases he : e = (get_user_preferences st).version
    · rw [if_neg (by simpa using he)] at h
      obtain ⟨X, hX⟩ := updateMerge_success _ _ _ _ _ _ h
      exact set_success_version _ _ _ _ _ _ hX
    · rw [if_pos (by simpa using he)] at h
      simp at h

theorem delete_success_version (st : Option PrefRow) (keys : List String)
    (now : Int) (r : Nat) (st2 : Option PrefRow)
    (h : delete_user_preferences st keys now = some (some r, st2)) :
    r = storedVersion st + 1 := by
  simp only [delete_user_preferences] at h
  cases hp : (get_user_preferences st).preferences <;> rw [hp] at h
  case obj base =>
    exact set_success_version _ _ _ _ _ _ (Option.some.inj h)
  all_goals cases hk : keys.isEmpty <;> rw [hk] at h
  all_goals first
    | (exact set_success_version _ _ _ _ _ _ (Option.some.inj h))
    | (simp at h)

/-- C4: with stored version v, which is 0 when no row exists, set with
expected version v returns v plus 1 and stores exactly the given
document at that version and timestamp, which a following get reads
back; and every successful set, update or delete returns the stored
version plus 1, so the first write initializes the version at 1. -/
theorem preferences_version_increment (st : Option PrefRow) (v : Nat) (now : Int)
    (hv : storedVersion st = v) :
    (∀ doc, set_user_preferences st doc (some v) now =
      (some (v + 1), some ⟨doc, v + 1, now⟩)) ∧
    (∀ doc, get_user_preferences (set_user_preferences st doc (some v) now).2 =
      ⟨doc, v + 1, some now⟩) ∧
    (∀ doc ev r st2, set_user_preferences st doc ev now = (some r, st2) → r = v + 1) ∧
    (∀ upd ev r st2, update_user_preferences st upd ev now = some (some r, st2) → r = v + 1) ∧
    (∀ keys r st2, delete_user_preferences st keys now = some (some r, st2) → r = v + 1) := by
  subst hv
  refine ⟨?_, ?_, ?_, ?_, ?_⟩
  · intro doc
    cases st with
    | none => rfl
    | some row => simp [set_user_preferences, storedVersion]
  · intro doc
    cases st with
    | none => rfl
    | some row => simp [set_user_preferences, storedVersion, get_user_preferences]
  · intro doc ev r st2 h
    exact set_success_version _ _ _ _ _ _ h
  · intro upd ev r st2 h
    exact update_success_version _ _ _ _ _ _ h
  · intro keys r st2 h
    exact delete_success_version _ _ _ _ _ h

/-- Witness for preferences_version_increment at stored version 3. -/
theorem preferences_version_increment_witness :
    storedVersion (some ⟨JVal.obj [], 3, 0⟩) = 3 ∧
    set_user_preferences (some ⟨JVal.obj [], 3, 0⟩) (JVal.str "d") (some 3) 9 =
      (some 4, some ⟨JVal.str "d", 4, 9⟩) := by
  have h := preferences_version_increment (some ⟨JVal.obj [], 3, 0⟩) 3 9 rfl
  exact ⟨rfl, h.1 (JVal.str "d")⟩

/-- C5: a successful partial update stores the deep merge of the update
into the current document, and at every key that merge takes the
recursively merged object when both sides hold objects, the update value
wholesale for any other update value, and the base value for keys the
update lacks. -/
theorem update_performs_deep_merge (st : Option PrefRow) (row : PrefRow)
    (base upd : List (String × JVal)) (ev : Option Nat) (now : Int)
    (hst : st = some row) (hb : row.preferences = JVal.obj base)
    (hev : ev = none ∨ ev = some row.version)
    (hnd : (upd.map Prod.fst).Nodup) :
    update_user_preferences st upd ev now =
      some (some (row.version + 1), some ⟨JVal.obj (deep_merge base upd), row.version + 1, now⟩) ∧
    ∀ k2, lookupEntry k2 (deep_merge base upd) =
      specMergeAt (lookupEntry k2 base) (lookupEntry k2 upd) := by
  constructor
  · subst hst
    rcases hev with h | h <;> subst h <;>
      simp [update_user_preferences, get_user_preferences, updateMerge, hb,
        set_user_preferences]
  · intro k2
    exact lookup_deep_merge k2 upd base hnd

/-- Witness for update_performs_deep_merge on the example of the spec:
updating key a holding x maps to 1 against a stored document whose key a
holds y maps to 2 yields the object holding both x and y under a. -/
theorem update_performs_deep_merge_witness :
    update_user_preferences (some ⟨JVal.obj [("a", JVal.obj [("y", JVal.num 2)])], 1, 0⟩)
        [("a", JVal.obj [("x", JVal.num 1)])] (some 1) 5 =
      some (some 2, some ⟨JVal.obj [("a", JVal.obj [("y", JVal.num 2), ("x", JVal.num 1)])], 2, 5⟩) := by
  have h := update_performs_deep_merge
      (some ⟨JVal.obj [("a", JVal.obj [("y", JVal.num 2)])], 1, 0⟩)
      ⟨JVal.obj [("a", JVal.obj [("y", JVal.num 2)])], 1, 0⟩
      [("a", JVal.obj [("y", JVal.num 2)])] [("a", JVal.obj [("x", JVal.num 1)])]
      (some 1) 5 rfl rfl (Or.inr rfl) (by simp)
  rw [h.1]
  simp [deep_merge, lookupEntry, setEntry]

theorem rlRun_within (m : Nat) (w t1 : Int) (ts : List Int) :
    ∀ c : Nat, (∀ t ∈ ts, t ≤ t1 + w) → c + ts.length ≤ m →
    rlRun (some ⟨c, t1⟩) ts m w = (List.replicate ts.length false, some ⟨c + ts.length, t1⟩) := by
  induction ts with
  | nil => intro c _ _; rfl
  | cons t ts ih =>
    intro c hin hc
    have hstep : check_rate_limit (some ⟨c, t1⟩) t m w = (false, some ⟨c + 1, t1⟩) := by
      have h1 : ¬ t1 < t - w := by
        have := hin t (List.mem_cons_self t ts)
        omega
      have h2 : ¬ m ≤ c := by
        simp [List.length_cons] at hc
        omega
      simp [check_rate_limit, h1, h2]
    have hrec := ih (c + 1) (fun t2 ht2 => hin t2 (List.mem_cons_of_mem t ht2))
      (by simp [List.length_cons] at hc ⊢; omega)
    simp only [rlRun, hstep, hrec, List.length_cons, List.replicate]
    have hcc : c + 1 + ts.length = c + (ts.length + 1) := by omega
    rw [hcc]

theorem rlRun_append (st : Option RLRow) (m : Nat) (w : Int) (a b : List Int) :
    rlRun st (a ++ b) m w =
      ((rlRun st a m w).1 ++ (rlRun (rlRun st a m w).2 b m w).1,
       (rlRun (rlRun st a m w).2 b m w).2) := by
  induction a generalizing st with
  | nil => simp [rlRun]
  | cons t ts ih => simp [rlRun, ih]

/-- C6 amended, for limits of at least 1, which the hypotheses force:
from no counter the first requests inside the window are allowed while
the counter counts them, the request after the limit inside the window
is denied without changing the counter, and any later request once
window_start is older than the window is allowed and resets the counter
to 1 at the new time. -/
theorem rate_limit_fixed_window (m : Nat) (w t1 : Int) (ts : List Int)
    (hin : ∀ t ∈ ts, t ≤ t1 + w) :
    (ts.length + 1 ≤ m →
      rlRun none (t1 :: ts) m w = (List.replicate (ts.length + 1) false, some ⟨ts.length + 1, t1⟩)) ∧
    (ts.length + 1 = m → ∀ t2, t2 ≤ t1 + w →
      rlRun none (t1 :: ts ++ [t2]) m w = (List.replicate m false ++ [true], some ⟨m, t1⟩)) ∧
    (∀ c : Nat, ∀ t3 : Int, t1 + w < t3 →
      check_rate_limit (some ⟨c, t1⟩) t3 m w = (false, some ⟨1, t3⟩)) := by
  have hfirst : check_rate_limit none t1 m w = (false, some ⟨1, t1⟩) := rfl
  refine ⟨?_, ?_, ?_⟩
  · intro hlen
    have h := rlRun_within m w t1 ts 1 hin (by omega)
    simp only [rlRun, hfirst, h]
    rw [List.replicate_succ]
    have hcc : (1 : Nat) + ts.length = ts.length + 1 := by omega
    rw [hcc]
  · intro hlen t2 ht2
    have hpre : rlRun none (t1 :: ts) m w =
        (List.replicate (ts.length + 1) false, some ⟨ts.length + 1, t1⟩) := by
      have h := rlRun_within m w t1 ts 1 hin (by omega)
      simp only [rlRun, hfirst, h]
      rw [List.replicate_succ]
      have hcc : (1 : Nat) + ts.length = ts.length + 1 := by omega
      rw [hcc]
    have hsplit := rlRun_append none m w (t1 :: ts) [t2]
    rw [show t1 :: ts ++ [t2] = (t1 :: ts) ++ [t2] from rfl, hsplit, hpre]
    have hlast : check_rate_limit (some ⟨ts.length + 1, t1⟩) t2 m w =
        (true, some ⟨ts.length + 1, t1⟩) := by
      have h1 : ¬ t1 < t2 - w := by omega
      have h2 : m ≤ ts.length + 1 := by omega
      simp [check_rate_limit, h1, h2]
    simp only [rlRun, hlast]
    rw [hlen]
  · intro c t3 h3
    have h1 : t1 < t3 - w := by omega
    simp [check_rate_limit, h1]

/-- C6: counterexample at limit 0.  The claim says the request numbered
limit plus 1, here the very first, is denied inside the window; the code
allows it because the no-counter branch inserts count 1 without
consulting the limit. -/
theorem rate_limit_zero_max_first_allowed :
    check_rate_limit none 0 0 1 = (false, some ⟨1, 0⟩) ∧
    (check_rate_limit none 0 0 1).1 ≠ true := by
  refine ⟨rfl, ?_⟩
  intro h
  simp [check_rate_limit] at h

/-- Witness for rate_limit_fixed_window with limit 2 and window 5: three
requests at time 0 give allowed, allowed, denied, and a request at time
6 resets the counter. -/
theorem rate_limit_fixed_window_witness :
    rlRun none [0, 0, 0] 2 5 = ([false, false, true], some ⟨2, 0⟩) ∧
    check_rate_limit (some ⟨2, 0⟩) 6 2 5 = (false, some ⟨1, 6⟩) := by
  have h := rate_limit_fixed_window 2 5 0 [0] (by decide)
  have h1 := h.2.1 rfl 0 (by decide)
  have h2 := h.2.2 2 6 (by decide)
  exact ⟨h1, h2⟩

/-- C1: failing evaluation for the claim that poll returns authorized
with fresh tokens and creates a DeviceSession exactly once per pairing,
consuming the code, with later polls answered as an error.  The code
never marks a device code consumed: a second poll of the same paired,
unexpired code returns authorized again, mints fresh tokens and inserts
a second DeviceSession row for the same device code. -/
theorem poll_repoll_reissues_tokens :
    poll_device_code (some ⟨1, some 7, 100, "tv"⟩) [⟨7, "a@b.c", "Ann", "user", true⟩] 50 [] 0 =
      (PollOutcome.authorized 0 1 7 "a@b.c" "Ann" "user", [⟨1, 7, 1, 80, "tv"⟩], 2) ∧
    poll_device_code (some ⟨1, some 7, 100, "tv"⟩) [⟨7, "a@b.c", "Ann", "user", true⟩] 60
        [⟨1, 7, 1, 80, "tv"⟩] 2 =
      (PollOutcome.authorized 2 3 7 "a@b.c" "Ann" "user",
       [⟨1, 7, 1, 80, "tv"⟩, ⟨1, 7, 3, 90, "tv"⟩], 4) := by
  decide

/-- C7: counterexample to the claim as stated.  A token that decodes as
a valid refresh-type token and has a live session row is still refused
with status 401 when the user it references is inactive. -/
theorem refresh_inactive_user_denied :
    refresh (fun t => if t = "rt" then some ⟨7, "a@b", "refresh"⟩ else none)
        (fun t => if t = "rt" then some ⟨7⟩ else none) (fun _ => none)
        [⟨7, "a@b", "A", "user", false⟩] (some "rt") = RefreshResult.userInvalid ∧
    refreshStatus (refresh (fun t => if t = "rt" then some ⟨7, "a@b", "refresh"⟩ else none)
        (fun t => if t = "rt" then some ⟨7⟩ else none) (fun _ => none)
        [⟨7, "a@b", "A", "user", false⟩] (some "rt")) = 401 := by
  decide

/-- C7 amended: for a token that decodes as a refresh-type payload,
refresh succeeds with a fresh access token for the same subject carrying
the current role of the user whenever a Session or DeviceSession row
holds the token and the referenced user exists and is active, and fails
with status 401 when no backing row exists even though the token still
decodes. -/
theorem refresh_session_row_controls (decode : String → Option TokenPayload)
    (sessions devSessions : String → Option SessRow) (users : List User)
    (tok : String) (p : TokenPayload)
    (hd : decode tok = some p) (ht : p.typ = "refresh") :
    (∀ u, (sessions tok ≠ none ∨ devSessions tok ≠ none) →
      get_user_by_id users p.user_id = some u → u.is_active = true →
      refresh decode sessions devSessions users (some tok) =
        RefreshResult.ok ⟨p.user_id, u.email, u.role, "access"⟩) ∧
    ((sessions tok = none ∧ devSessions tok = none) →
      refresh decode sessions devSessions users (some tok) = RefreshResult.sessionNotFound ∧
      refreshStatus (refresh decode sessions devSessions users (some tok)) = 401) := by
  constructor
  · intro u hrow hu hact
    have hid : u.id = p.user_id := by
      have := List.find?_some hu
      simpa using this
    rcases hs : sessions tok with _ | s
    · rcases hds : devSessions tok with _ | s2
      · rcases hrow with h | h
        · exact absurd hs h
        · exact absurd hds h
      · simp [refresh, hd, ht, hs, hds, hu, hact, generate_access_token, hid]
    · simp [refresh, hd, ht, hs, hu, hact, generate_access_token, hid]
  · rintro ⟨hs, hds⟩
    refine ⟨?_, ?_⟩ <;> simp [refresh, hd, ht, hs, hds, refreshStatus]

/-- Witness for refresh_session_row_controls: a live row with an active
user yields a fresh access token, and the same token with the row
removed is refused. -/
theorem refresh_session_row_controls_witness :
    refresh (fun t => if t = "rt" then some ⟨7, "a@b", "refresh"⟩ else none)
        (fun t => if t = "rt" then some ⟨7⟩ else none) (fun _ => none)
        [⟨7, "a@b", "A", "user", true⟩] (some "rt") =
      RefreshResult.ok ⟨7, "a@b", "user", "access"⟩ ∧
    refresh (fun t => if t = "rt" then some ⟨7, "a@b", "refresh"⟩ else none)
        (fun _ => none) (fun _ => none)
        [⟨7, "a@b", "A", "user", true⟩] (some "rt") = RefreshResult.sessionNotFound := by
  have h1 := refresh_session_row_controls
      (fun t => if t = "rt" then some ⟨7, "a@b", "refresh"⟩ else none)
      (fun t => if t = "rt" then some ⟨7⟩ else none) (fun _ => none)
      [⟨7, "a@b", "A", "user", true⟩] "rt" ⟨7, "a@b", "refresh"⟩ (by decide) rfl
  have h2 := refresh_session_row_controls
      (fun t => if t = "rt" then some ⟨7, "a@b", "refresh"⟩ else none)
      (fun _ => none) (fun _ => none)
      [⟨7, "a@b", "A", "user", true⟩] "rt" ⟨7, "a@b", "refresh"⟩ (by decide) rfl
  refine ⟨h1.1 ⟨7, "a@b", "A", "user", true⟩ (Or.inl (by decide)) (by decide) rfl, ?_⟩
  exact (h2.2 ⟨rfl, rfl⟩).1

/-- C10: a request bearing a token that decodes as a valid access-type
payload is still answered 401 whenever the user row the payload
references is missing or inactive, because get_current_user re-reads the
user row on every request. -/
theorem require_auth_blocks_inactive_user (decode : String → Option TokenPayload)
    (users : List User) (t : String) (p : TokenPayload)
    (hd : decode t = some p) (ht : p.typ = "access")
    (hu : get_user_by_id users p.user_id = none ∨
      ∃ u, get_user_by_id users p.user_id = some u ∧ u.is_active = false) :
    get_current_user decode users (some t) = none ∧
    require_auth_status (get_current_user decode users (some t)) = 401 := by
  have hnone : get_current_user decode users (some t) = none := by
    rcases hu with h | ⟨u, h, hact⟩
    · simp [get_current_user, hd, ht, h]
    · simp [get_current_user, hd, ht, h, hact]
  exact ⟨hnone, by rw [hnone]; rfl⟩

/-- Witness for require_auth_blocks_inactive_user with an empty user
table. -/
theorem require_auth_blocks_inactive_user_witness :
    get_current_user (fun t => if t = "at" then some ⟨9, "x@y", "access"⟩ else none) []
      (some "at") = none := by
  exact (require_auth_blocks_inactive_user
    (fun t => if t = "at" then some ⟨9, "x@y", "access"⟩ else none) [] "at"
    ⟨9, "x@y", "access"⟩ (by decide) rfl (Or.inl rfl)).1

theorem lookupEntry_foldl_setEntry {α : Type} (k : String) (rows : List (String × α)) :
    ∀ init : List (String × α),
    lookupEntry k (rows.foldl (fun m kv => setEntry kv.1 kv.2 m) init) =
      orElseOpt (lastValue k rows) (lookupEntry k init) := by
  induction rows with
  | nil => intro init; rfl
  | cons hd rest ih =>
    obtain ⟨k2, v⟩ := hd
    intro init
    rw [List.foldl_cons, ih, lookupEntry_setEntry]
    simp only [lastValue]
    rcases lastValue k rest with _ | x
    · by_cases hk : k2 = k <;> simp [hk, orElseOpt]
    · simp [orElseOpt]

theorem orElseOpt_none_right {α : Type} (a : Option α) : orElseOpt a none = a := by
  cases a <;> rfl

theorem mem_keys_setEntry {α : Type} (x k : String) (v : α) (l : List (String × α))
    (h : x ∈ (setEntry k v l).map Prod.fst) : x ∈ l.map Prod.fst ∨ x = k := by
  induction l with
  | nil =>
    simp only [setEntry, List.map_cons, List.map_nil, List.mem_singleton] at h
    exact Or.inr h
  | cons hd tl ih =>
    obtain ⟨k2, v2⟩ := hd
    by_cases hk : k2 = k
    · subst hk
      rw [setEntry, if_pos rfl] at h
      simp only [List.map_cons, List.mem_cons] at h ⊢
      rcases h with h1 | h1
      · exact Or.inr h1
      · exact Or.inl (Or.inr h1)
    · rw [setEntry, if_neg hk] at h
      simp only [List.map_cons, List.mem_cons] at h ⊢
      rcases h with h1 | h1
      · exact Or.inl (Or.inl h1)
      · rcases ih h1 with h2 | h2
        · exact Or.inl (Or.inr h2)
        · exact Or.inr h2

theorem nodup_keys_setEntry {α : Type} (k : String) (v : α) (l : List (String × α))
    (h : (l.map Prod.fst).Nodup) : ((setEntry k v l).map Prod.fst).Nodup := by
  induction l with
  | nil => simp [setEntry]
  | cons hd tl ih =>
    obtain ⟨k2, v2⟩ := hd
    rw [List.map_cons, List.nodup_cons] at h
    by_cases hk : k2 = k
    · subst hk
      rw [setEntry, if_pos rfl]
      simpa using h
    · rw [setEntry, if_neg hk]
      rw [List.map_cons, List.nodup_cons]
      refine ⟨fun hmem => ?_, ih h.2⟩
      rcases mem_keys_setEntry _ _ _ _ hmem with h2 | h2
      · exact h.1 h2
      · exact hk h2

theorem nodup_keys_foldl (rows : List (String × String)) :
    ∀ init : List (String × String), (init.map Prod.fst).Nodup →
    (((rows.foldl (fun m kv => setEntry kv.1 kv.2 m) init)).map Prod.fst).Nodup := by
  induction rows with
  | nil => intro init h; simpa using h
  | cons hd rest ih =>
    intro init h
    rw [List.foldl_cons]
    exact ih _ (nodup_keys_setEntry _ _ _ h)

theorem lastValue_eq_none_of_not_mem {α : Type} (k : String) (l : List (String × α))
    (h : k ∉ l.map Prod.fst) : lastValue k l = none := by
  induction l with
  | nil => rfl
  | cons hd tl ih =>
    obtain ⟨k2, v⟩ := hd
    rw [List.map_cons, List.mem_cons] at h
    push_neg at h
    have hne : k2 ≠ k := fun hh => h.1 hh.symm
    simp [lastValue, ih h.2, hne]

theorem lastValue_eq_lookup_of_nodup {α : Type} (k : String) (l : List (String × α))
    (h : (l.map Prod.fst).Nodup) : lastValue k l = lookupEntry k l := by
  induction l with
  | nil => rfl
  | cons hd tl ih =>
    obtain ⟨k2, v⟩ := hd
    rw [List.map_cons, List.nodup_cons] at h
    by_cases hk : k2 = k
    · subst hk
      have hnone : lastValue k2 tl = none := lastValue_eq_none_of_not_mem _ _ h.1
      simp [lastValue, lookupEntry, hnone]
    · simp only [lastValue, ih h.2, lookupEntry, if_neg hk]
      cases lookupEntry k tl <;> rfl

/-- Effective permission lookup: the value the access check consults for
a widget is the last direct row for it when one exists, otherwise the
last group row for it. -/
theorem lookup_userWidgetPerms (db : PermDB) (uid : Nat) (now : Int) (w : String) :
    lookupEntry w (get_user_widget_permissions db uid now) =
      orElseOpt (lastValue w (directRows db uid now)) (lastValue w (groupRows db uid now)) := by
  unfold get_user_widget_permissions dictMerge
  rw [lookupEntry_foldl_setEntry]
  rw [lastValue_eq_lookup_of_nodup _ _ (by
    unfold dictOfRows
    exact nodup_keys_foldl _ _ (by simp))]
  unfold dictOfRows
  rw [lookupEntry_foldl_setEntry, lookupEntry_foldl_setEntry]
  have h0 : lookupEntry w ([] : List (String × String)) = none := rfl
  rw [h0, orElseOpt_none_right, orElseOpt_none_right]

/-- C9 amended: for the access check the effective level of a widget is
the non-expired direct grant when one exists, otherwise the last-listed
non-expired group-derived grant; direct grants override group grants
instead of taking the maximum of the two. -/
theorem effective_level_direct_overrides (db : PermDB) (uid : Nat) (now : Int) (w : String) :
    lookupEntry w (get_user_widget_permissions db uid now) =
      orElseOpt (lastValue w (directRows db uid now)) (lastValue w (groupRows db uid now)) :=
  lookup_userWidgetPerms db uid now w

/-- C9: counterexample to the highest-level claim.  With a direct view
grant and a group admin grant on the same widget the effective level is
view, not admin, and an admin-level check fails. -/
theorem effective_level_not_highest :
    lookupEntry "w" (get_user_widget_permissions permDB0 1 0) = some "view" ∧
    some "view" ≠ some "admin" ∧
    check_widget_access permDB0 1 "w" "admin" 0 = false := by
  decide

/-- C8: counterexample to the first clause as stated.  A role-user user
holding a non-expired admin-level group grant on the widget is refused
the edit-level check when they also hold a direct view grant, because
the direct grant overrides the group grant. -/
theorem widget_access_direct_view_masks_group_admin :
    check_widget_access permDB0 1 "w" "edit" 0 = false := by
  decide

/-- C8 amended: for a role-user user the edit-level check passes when
there is no direct grant on the widget and the governing group grant is
admin-level, fails when every non-expired grant on the widget is
view-level, and for a role-admin user every check passes regardless of
grants. -/
theorem widget_access_hierarchy (db : PermDB) (uid : Nat) (w : String) (now : Int)
    (u : User) (hu : get_user_by_id db.users uid = some u) :
    (u.role = "user" → lastValue w (directRows db uid now) = none →
      lastValue w (groupRows db uid now) = some "admin" →
      check_widget_access db uid w "edit" now = true) ∧
    (u.role = "user" →
      (∀ lvl, lastValue w (directRows db uid now) = some lvl → lvl = "view") →
      (∀ lvl, lastValue w (groupRows db uid now) = some lvl → lvl = "view") →
      check_widget_access db uid w "edit" now = false) ∧
    (u.role = "admin" → ∀ w2 req, check_widget_access db uid w2 req now = true) := by
  refine ⟨?_, ?_, ?_⟩
  · intro hrole hdir hgrp
    have hl := lookup_userWidgetPerms db uid now w
    rw [hdir, hgrp] at hl
    simp only [orElseOpt] at hl
    simp [check_widget_access, hu, hrole, hl, levelRank]
  · intro hrole hdir hgrp
    have hl := lookup_userWidgetPerms db uid now w
    rcases hD : lastValue w (directRows db uid now) with _ | lvlD
    · rcases hG : lastValue w (groupRows db uid now) with _ | lvlG
      · rw [hD, hG] at hl
        simp only [orElseOpt] at hl
        simp [check_widget_access, hu, hrole, hl]
      · have hv := hgrp lvlG hG
        subst hv
        rw [hD, hG] at hl
        simp only [orElseOpt] at hl
        simp [check_widget_access, hu, hrole, hl, levelRank]
    · have hv := hdir lvlD hD
      subst hv
      rw [hD] at hl
      simp only [orElseOpt] at hl
      simp [check_widget_access, hu, hrole, hl, levelRank]
  · intro hrole w2 req
    simp [check_widget_access, hu, hrole]

/-- Witness for widget_access_hierarchy: the group-admin-only user
passes the edit check and the admin-role user passes an admin check with
no grants at all. -/
theorem widget_access_hierarchy_witness :
    check_widget_access permDBW 1 "w" "edit" 0 = true ∧
    check_widget_access permDBW 2 "x" "admin" 0 = true := by
  have h1 := widget_access_hierarchy permDBW 1 "w" 0 ⟨1, "a@e", "A", "user", true⟩ (by decide)
  have h2 := widget_access_hierarchy permDBW 2 "x" 0 ⟨2, "b@e", "B", "admin", true⟩ (by decide)
  exact ⟨h1.1 rfl (by decide) (by decide), h2.2.2 rfl "x" "admin"⟩

end Olympia
